import Mathlib

/-!
Verification development for the Accesorios-compras catalog scraper.

The repository contains three variants of the same scraping engine:
an HTML variant built on a DOM query library (catalogo-myshop/scraper/main.go,
called the G variant below), an HTML variant built on regular expressions
(src/unnamed/part_000, the R variant), and a JSON-API variant with a dynamic
worker-pool scheduler (src/unnamed/part_002, the P2 variant).

The embedding models Go strings as Lean strings (lists of characters), Go
float64 price arithmetic as exact rational arithmetic (the price computations
in the source are divisions by powers of ten, multiplications by 100, and
half-away-from-zero roundings; on the concrete values exercised by the claims
these are exact in float64 as well), and the DOM/regex extraction machinery as
record fields holding the extracted text, matching the separation drawn by the
specification, which treats the markup query mechanism as an external
collaborator.  All normalization, aggregation and scheduling logic is
translated from the source.
-/

namespace AccCompras

/-! ## Go string primitives modeled over character lists -/

/-- Lexicographic strict order on character lists, by Unicode code point.
Models the order Go uses to compare strings (byte order; identical to code
point order on the ASCII data handled here). -/
def charListLt : List Char → List Char → Bool
  | [], [] => false
  | [], _ :: _ => true
  | _ :: _, [] => false
  | a :: as, b :: bs => a.toNat < b.toNat || (a.toNat == b.toNat && charListLt as bs)

/-- Strict order on strings, models the Go expression s1 < s2. -/
def strLtB (a b : String) : Bool := charListLt a.data b.data

/-- Whether pat occurs at the start of cs. -/
def leadsWith : List Char → List Char → Bool
  | [], _ => true
  | _ :: _, [] => false
  | a :: as, b :: bs => a == b && leadsWith as bs

/-- Whether pat occurs anywhere in cs; models Go strings.Contains for a
non-empty pattern. -/
def containsAt (pat : List Char) : List Char → Bool
  | [] => leadsWith pat []
  | c :: rest => leadsWith pat (c :: rest) || containsAt pat rest

/-- Models Go strings.Contains. -/
def strContains (s pat : String) : Bool := containsAt pat.data s.data

/-- Drop whitespace from both ends; models Go strings.TrimSpace (the source
pages only carry ASCII whitespace around the extracted fields). -/
def trimChars (cs : List Char) : List Char :=
  ((cs.dropWhile Char.isWhitespace).reverse.dropWhile Char.isWhitespace).reverse

/-- Models Go strings.TrimSpace on strings. -/
def trimS (s : String) : String := String.mk (trimChars s.data)

/-- Case-insensitive equality; models Go strings.EqualFold on the ASCII
labels compared by the source (home, inicio). -/
def eqFold (a b : String) : Bool :=
  a.data.map Char.toLower == b.data.map Char.toLower

/-- Single-pass tag stripper; models the replacement of every HTML tag by the
empty string that the R variant applies inside an h1 element. -/
def stripTagsGo : Bool → List Char → List Char
  | _, [] => []
  | true, c :: rest =>
      if c == '>' then stripTagsGo false rest else stripTagsGo true rest
  | false, c :: rest =>
      if c == '<' then stripTagsGo true rest else c :: stripTagsGo false rest

/-- Models the tag stripping applied to the h1 contents in the R variant. -/
def stripTags (s : String) : String := String.mk (stripTagsGo false s.data)

/-- Decode of the five basic HTML entities; models the html.UnescapeString
call of the R variant (the full entity table of the Go html package is data
of the external markup library; the pages at hand use only the basic ones). -/
def unescapeChars : List Char → List Char
  | [] => []
  | '&' :: 'a' :: 'm' :: 'p' :: ';' :: rest => '&' :: unescapeChars rest
  | '&' :: 'l' :: 't' :: ';' :: rest => '<' :: unescapeChars rest
  | '&' :: 'g' :: 't' :: ';' :: rest => '>' :: unescapeChars rest
  | '&' :: 'q' :: 'u' :: 'o' :: 't' :: ';' :: rest => '"' :: unescapeChars rest
  | '&' :: '#' :: '3' :: '9' :: ';' :: rest => '\'' :: unescapeChars rest
  | c :: rest => c :: unescapeChars rest

/-- Models html.UnescapeString on strings. -/
def unescapeS (s : String) : String := String.mk (unescapeChars s.data)

/-! ## Go numeric parsing -/

/-- Split a character list into its leading run of decimal digits and the
rest. -/
def splitDigits : List Char → List Char × List Char
  | [] => ([], [])
  | c :: rest =>
      if c.isDigit then
        let p := splitDigits rest
        (c :: p.1, p.2)
      else ([], c :: rest)

/-- Numeric value of a digit list, most significant first. -/
def digitsToNat : List Char → Nat
  | [] => 0
  | c :: rest => (c.toNat - '0'.toNat) * 10 ^ rest.length + digitsToNat rest

/-- Decimal parser for Go strconv.ParseFloat restricted to the plain decimal
forms reachable from the source regular expressions (optional sign, digits,
optional fraction); any unparsable input yields none, which the source turns
into 0 via the discarded error. -/
def goParseFloat (s : String) : Option ℚ :=
  let signed : Int × List Char :=
    match s.data with
    | '-' :: rest => (-1, rest)
    | '+' :: rest => (1, rest)
    | cs => (1, cs)
  let ip := splitDigits signed.2
  match ip.2 with
  | [] =>
      if ip.1 = [] then none
      else some ((signed.1 : ℚ) * (digitsToNat ip.1 : ℚ))
  | '.' :: rest =>
      let fp := splitDigits rest
      if fp.2 = [] ∧ ¬(ip.1 = [] ∧ fp.1 = []) then
        some ((signed.1 : ℚ) *
          ((digitsToNat ip.1 : ℚ) + (digitsToNat fp.1 : ℚ) / 10 ^ fp.1.length))
      else none
  | _ => none

/-- ParseFloat with the error discarded, as in the v, _ := assignments of the
source: a failed parse yields 0. -/
def goParseFloatD (s : String) : ℚ := (goParseFloat s).getD 0

/-- Models Go strconv.Atoi (optional sign followed by digits, whole string;
the prices handled stay far below the int64 bound so overflow is not
modeled). -/
def goAtoi (s : String) : Option Int :=
  let signed : Int × List Char :=
    match s.data with
    | '-' :: rest => (-1, rest)
    | '+' :: rest => (1, rest)
    | cs => (1, cs)
  let p := splitDigits signed.2
  if p.1 = [] ∨ p.2 ≠ [] then none
  else some (signed.1 * (digitsToNat p.1 : Int))

/-- Models Go math.Round: round half away from zero, as an integer. -/
def goRoundZ (q : ℚ) : ℤ :=
  if q < 0 then -⌊-q + 1/2⌋ else ⌊q + 1/2⌋

/-- Models Go math.Round as a rational. -/
def goRound (q : ℚ) : ℚ := (goRoundZ q : ℚ)

/-! ## Canonical output schema -/

/-- Output record of all three variants (struct Product of the source, with
the Spanish JSON field names). Prices are modeled as exact rationals. -/
structure Product where
  nombre : String
  precio : ℚ
  precioOriginal : ℚ
  enOferta : Bool
  stock : String
  imagen : String
  imagen64 : String
  link : String
  categoria : String
  subcategorias : List String
deriving DecidableEq, Repr

/-- Listing-phase record of the HTML variants (struct productEntry). -/
structure ProductEntry where
  url : String
  imagen64 : String
  category : String
deriving DecidableEq, Repr

/-! ## JSON-API variant (src/unnamed/part_002): WooCommerce Store API model -/

/-- Price block of one API product (struct APIPrices). -/
structure APIPrices where
  price : String
  regularPrice : String
  salePrice : String
  currencyMinorUnit : Int
deriving DecidableEq, Repr

/-- Image block of one API product (struct APIImage). -/
structure APIImage where
  src : String
  srcset : String
deriving DecidableEq, Repr

/-- Category block of one API product (struct APICategory). -/
structure APICategory where
  id : Int
  name : String
  slug : String
  parent : Int
  count : Int
deriving DecidableEq, Repr

/-- Stock availability block of one API product (struct APIStockAvail; the
class field of the source is renamed className because class is a Lean
keyword). -/
structure APIStockAvail where
  text : String
  className : String
deriving DecidableEq, Repr

/-- One product as returned by the WooCommerce Store API (struct
APIProduct). -/
structure APIProduct where
  name : String
  permalink : String
  onSale : Bool
  prices : APIPrices
  images : List APIImage
  categories : List APICategory
  stockAvailability : APIStockAvail
deriving DecidableEq, Repr

/-- Translation of convertPrice of part_002: convert a WooCommerce
minor-unit price string to a number, via Atoi, division by 10 to the minor
unit, and rounding to two decimals; empty or invalid input yields 0. -/
def convertPrice (priceStr : String) (minorUnit : Int) : ℚ :=
  if priceStr = "" then 0
  else
    match goAtoi priceStr with
    | none => 0
    | some val => goRound ((val : ℚ) / (10 : ℚ) ^ minorUnit * 100) / 100

/-- Split a character list at commas (models strings.SplitSeq with a comma
separator). -/
def splitComma : List Char → List (List Char)
  | [] => [[]]
  | c :: rest =>
      if c == ',' then [] :: splitComma rest
      else
        match splitComma rest with
        | [] => [[c]]
        | h :: t => (c :: h) :: t

/-- Helper for fieldsChars carrying the word being accumulated, reversed. -/
def fieldsAux : List Char → List Char → List (List Char)
  | cur, [] => if cur = [] then [] else [cur.reverse]
  | cur, c :: rest =>
      if c.isWhitespace then
        if cur = [] then fieldsAux [] rest else cur.reverse :: fieldsAux [] rest
      else fieldsAux (c :: cur) rest

/-- Models Go strings.Fields: split at whitespace runs, dropping empty
pieces. -/
def fieldsChars (cs : List Char) : List (List Char) := fieldsAux [] cs

/-- Helper for extractSrcsetURL: first srcset entry whose second field is the
width descriptor. -/
def goFindSrcset : List (List Char) → String → String
  | [], _ => ""
  | entry :: rest, width =>
      match fieldsChars (trimChars entry) with
      | [u, w] => if w = width.data then String.mk u else goFindSrcset rest width
      | _ => goFindSrcset rest width

/-- Translation of extractSrcsetURL of part_002: return the URL paired with
the given width descriptor in a srcset attribute, or the empty string. -/
def extractSrcsetURL (srcset width : String) : String :=
  goFindSrcset (splitComma srcset.data) width

/-- Translation of parseProducts of part_002: map API products into the
output schema under the category a page task was issued for. -/
def parseProducts (apiProducts : List APIProduct) (categoryName : String) :
    List Product :=
  apiProducts.map fun ap =>
    let imagen : String := match ap.images with
      | [] => ""
      | img :: _ => img.src
    let imagen64 : String := match ap.images with
      | [] => ""
      | img :: _ =>
          let i64 := extractSrcsetURL img.srcset "100w"
          if i64 = "" then img.src else i64
    let precio : ℚ :=
      if ap.onSale && !(ap.prices.salePrice == "") then
        convertPrice ap.prices.salePrice ap.prices.currencyMinorUnit
      else convertPrice ap.prices.price ap.prices.currencyMinorUnit
    let precioOriginal : ℚ :=
      convertPrice ap.prices.regularPrice ap.prices.currencyMinorUnit
    { nombre := ap.name
      precio := precio
      precioOriginal := precioOriginal
      enOferta := ap.onSale
      stock := ap.stockAvailability.text
      imagen := imagen
      imagen64 := imagen64
      link := ap.permalink
      categoria := categoryName
      subcategorias := ap.categories.map (fun c => c.name) }

/-! ## HTML variants: shared helpers -/

/-- Base URL of the HTML shop (const baseURL). -/
def baseURL : String := "https://www.my-shop.mx"

/-- Translation of absURL of the HTML variants: prefix relative paths with
the base URL, leave absolute URLs and the empty string alone. -/
def absURL (rel : String) : String :=
  if rel = "" || leadsWith "http".data rel.data then rel else baseURL ++ rel

/-- First selector text whose trimmed form is non-empty, or the empty string;
models the first-match loops over selector results in the G variant. -/
def firstNonemptyTrim : List String → String
  | [] => ""
  | t :: rest =>
      if trimS t = "" then firstNonemptyTrim rest else trimS t

/-! ## DOM-query HTML variant (catalogo-myshop/scraper/main.go), G variant -/

/-- Extraction results of one detail page in the G variant.  Each field holds
what the DOM query library (an external collaborator in the specification)
returns for the corresponding selector in scrapeProduct: texts in document
order, attribute values, and the body text used for the stock fallback. -/
structure RawG where
  h1Text : String
  metaPriceContent : Option String
  priceSelTexts : List String
  spanTexts : List String
  delText : String
  availTexts : List String
  bodyText : String
  detailImgSrc : String
  breadcrumbTexts : List String
deriving DecidableEq, Repr

/-- First number token of a comma-stripped string, as matched by the
reFirstNum pattern of the G variant (first digit, following digits, an
optional decimal point and following digits). -/
def firstNumTok : List Char → List Char
  | [] => []
  | c :: rest =>
      if c.isDigit then
        let p := splitDigits rest
        match p.2 with
        | '.' :: r2 => c :: p.1 ++ '.' :: (splitDigits r2).1
        | _ => c :: p.1
      else firstNumTok rest

/-- Translation of parsePrice of the G variant: strip commas, take the first
number token, parse it as a float; no token yields 0. -/
def parsePriceG (s : String) : ℚ :=
  let stripped := s.data.filter (fun c => !(c == ','))
  match firstNumTok stripped with
  | [] => 0
  | tok => goParseFloatD (String.mk tok)

/-- Last-resort price text scan of the G variant: first span, div or p text
whose trimmed form contains a dollar sign and MXN and is shorter than 60
bytes. -/
def lastResortPriceText : List String → String
  | [] => ""
  | t :: rest =>
      let tt := trimS t
      if strContains tt "$" && strContains tt "MXN" &&
          decide (tt.utf8ByteSize < 60) then tt
      else lastResortPriceText rest

/-- Breadcrumb filter shared by both HTML variants: keep non-empty labels
that are neither the home nor the inicio root label. -/
def breadcrumbKeep (t : String) : Bool :=
  !(t == "") && !eqFold t "home" && !eqFold t "inicio"

/-- Category resolution block shared verbatim by both HTML variants (the
tail of scrapeProduct): the listing category is authoritative; otherwise the
last remaining breadcrumb; otherwise the literal General label.  Returns the
category and the subcategory list. -/
def resolveCategory (entryCategory : String) (subcats : List String) :
    String × List String :=
  if entryCategory ≠ "" then
    (entryCategory, if subcats = [] then [entryCategory] else subcats)
  else if subcats ≠ [] then
    (subcats.getLastD "", subcats)
  else ("General", ["General"])

/-- Translation of scrapeProduct of the G variant (normalization of one
detail page given the listing entry it came from; the fetch itself, whose
failure makes the task skipped before any Product is built, is external). -/
def scrapeProductG (raw : RawG) (entry : ProductEntry) : Product :=
  let nombre := trimS raw.h1Text
  let precio : ℚ :=
    match raw.metaPriceContent with
    | some s =>
        if s ≠ "" then goParseFloatD s
        else
          let priceText := firstNonemptyTrim raw.priceSelTexts
          let priceText :=
            if priceText = "" then lastResortPriceText raw.spanTexts
            else priceText
          parsePriceG priceText
    | none =>
        let priceText := firstNonemptyTrim raw.priceSelTexts
        let priceText :=
          if priceText = "" then lastResortPriceText raw.spanTexts
          else priceText
        parsePriceG priceText
  let delT := trimS raw.delText
  let precioOriginal : ℚ := if delT ≠ "" then parsePriceG delT else precio
  let enOferta : Bool := if delT ≠ "" then decide (precioOriginal > precio) else false
  let stockText := firstNonemptyTrim raw.availTexts
  let stock : String :=
    if stockText ≠ "" then stockText
    else if strContains raw.bodyText "Esta combinación no existe" then "Agotado"
    else if strContains raw.bodyText "Añadir al carrito" ||
        strContains raw.bodyText "Agregar al carrito" then "Disponible"
    else "Desconocido"
  let imagen : String :=
    if raw.detailImgSrc ≠ "" then absURL raw.detailImgSrc else entry.imagen64
  let imagen64 : String := if entry.imagen64 = "" then imagen else entry.imagen64
  let subcats0 :=
    (raw.breadcrumbTexts.map trimS).filter breadcrumbKeep
  let subcats := subcats0.dropLast
  let resolved := resolveCategory entry.category subcats
  { nombre := nombre
    precio := precio
    precioOriginal := precioOriginal
    enOferta := enOferta
    stock := stock
    imagen := imagen
    imagen64 := imagen64
    link := entry.url
    categoria := resolved.1
    subcategorias := resolved.2 }

/-! ## Regex HTML variant (src/unnamed/part_000), R variant -/

/-- Extraction results of one detail page in the R variant: the capture
groups of the regular expressions of part_000 (external pattern machinery),
plus the raw body used for the plain substring checks the variant performs
itself. -/
structure RawR where
  itempropName : Option String
  h1Inner : Option String
  hiddenPrice : Option String
  visiblePrice : Option String
  listPriceCap : Option String
  imgSrcCap : Option String
  breadcrumbCaps : List String
  body : String
deriving DecidableEq, Repr

/-- Translation of parsePrice of the R variant: strip commas and parse the
whole string as a float; failure yields 0. -/
def parsePriceR (s : String) : ℚ :=
  goParseFloatD (String.mk (s.data.filter (fun c => !(c == ','))))

/-- Translation of scrapeProduct of the R variant. -/
def scrapeProduct000 (raw : RawR) (entry : ProductEntry) : Product :=
  let nombre : String :=
    match raw.itempropName with
    | some m => unescapeS (trimS m)
    | none =>
        match raw.h1Inner with
        | some m => unescapeS (trimS (stripTags m))
        | none => ""
  let precio : ℚ :=
    match raw.hiddenPrice with
    | some m => parsePriceR m
    | none =>
        match raw.visiblePrice with
        | some m => parsePriceR m
        | none => 0
  let po : ℚ × Bool :=
    match raw.listPriceCap with
    | some m =>
        let listPrice := parsePriceR m
        if listPrice > precio then (listPrice, true) else (precio, false)
    | none => (precio, false)
  let stock : String :=
    if strContains raw.body "Esta combinación no existe" then "Agotado"
    else if strContains raw.body "id=\"add_to_cart\"" then "Disponible"
    else "Desconocido"
  let imagen0 : String :=
    match raw.imgSrcCap with
    | some m => absURL m
    | none => ""
  let imagen := if imagen0 = "" then entry.imagen64 else imagen0
  let imagen64 := if entry.imagen64 = "" then imagen else entry.imagen64
  let subcats0 :=
    (raw.breadcrumbCaps.map (fun m => unescapeS (trimS m))).filter breadcrumbKeep
  let subcats := subcats0.dropLast
  let resolved := resolveCategory entry.category subcats
  { nombre := nombre
    precio := precio
    precioOriginal := po.1
    enOferta := po.2
    stock := stock
    imagen := imagen
    imagen64 := imagen64
    link := entry.url
    categoria := resolved.1
    subcategorias := resolved.2 }

/-! ## Sink: final ordering and aggregation -/

/-- Boolean less closure passed to the final sort of both run functions:
by category first, then by name. -/
def prodLessB (p q : Product) : Bool :=
  if p.categoria ≠ q.categoria then strLtB p.categoria q.categoria
  else strLtB p.nombre q.nombre

/-- Sort relation induced by the less closure: sort.Slice sorts ascending
with respect to less, so the output satisfies the negation of the swapped
less between any two positions in order. -/
def ProdLe (p q : Product) : Prop := prodLessB q p = false

instance : DecidableRel ProdLe :=
  fun p q => inferInstanceAs (Decidable (prodLessB q p = false))

/-- Sort key of a product, as compared by the less closure. -/
def prodKey (p : Product) : String × String := (p.categoria, p.nombre)

/-- Final sort of the accumulated product list.  The source calls the sort
routine of the Go standard library with the less closure above; that routine
guarantees a sorted permutation of its input (and is not stable), which this
comparison-sort model realizes. -/
def sortProducts (l : List Product) : List Product := List.insertionSort ProdLe l

/-- Translation of the global dedup loop of the run function of the HTML
variants: walk the collected entries, skipping any whose URL was already
seen. -/
def dedupEntries : List String → List ProductEntry → List ProductEntry
  | _, [] => []
  | seen, e :: rest =>
      if e.url ∈ seen then dedupEntries seen rest
      else e :: dedupEntries (e.url :: seen) rest

/-- Aggregation and final write of the P2 variant run function: batches
arrive from the results channel in completion order, are appended to the
accumulated list, and the final write sorts by category then name.  No
deduplication of any kind is applied on this path. -/
def runOutputP2 (batches : List (List APIProduct × String)) : List Product :=
  sortProducts ((batches.map fun b => parseProducts b.1 b.2).flatten)

/-- Key-level form of the less closure. -/
def keyLtB (a b : String × String) : Bool :=
  if a.1 ≠ b.1 then strLtB a.1 b.1 else strLtB a.2 b.2

/-! ## Scheduler of the P2 variant: dynamic pagination with a pending counter

The worker function of part_002 processes one page task at a time.  On a
non-empty page it first increments the shared pending counter for the
follow-up task, then sends that task to the channel, and only then
decrements the counter for the task just finished; on an empty page or a
failed fetch it only decrements.  The run function seeds one page-1 task per
category (incrementing per seed) and a monitor closes the intake once the
counter reaches zero.  The model below is a small-step machine whose atomic
transitions are exactly these counter and channel operations, in the order
the worker body performs them.  Categories are identified by numbers and the
remote catalog is abstracted by the number of non-empty pages per category:
page p of category c is non-empty exactly when p is at most numPages c. -/

/-- A page task of the P2 scheduler (struct task; the slug is the category
identifier). -/
structure PageTask where
  cat : Nat
  page : Nat
deriving DecidableEq, Repr

/-- Micro-state of one worker: idle between tasks, holding a freshly
dequeued task, having incremented the counter for the follow-up task of a
non-empty page, or having also sent that follow-up to the channel. -/
inductive WState where
  | idle : WState
  | got : PageTask → WState
  | incremented : PageTask → WState
  | enqueued : PageTask → WState
deriving DecidableEq, Repr

/-- Global state of the scheduler: the channel content, the workers, the
pending counter, the categories whose terminating empty page has been
processed, and whether any task was ever skipped after exhausting its
retries. -/
structure Sched where
  queue : List PageTask
  workers : List WState
  pending : Int
  resolved : List Nat
  skipped : Bool
deriving DecidableEq, Repr

/-- Initial state of the run function: one page-1 task per category in the
channel, the counter already incremented once per seed, all workers idle. -/
def schedInit (cats : List Nat) (w : Nat) : Sched :=
  { queue := cats.map fun c => ⟨c, 1⟩
    workers := List.replicate w WState.idle
    pending := (cats.length : Int)
    resolved := []
    skipped := false }

/-- Atomic transitions of the P2 scheduler, parameterized by the number of
non-empty pages of each category.  Each constructor is one atomic action of
the worker body of part_002, in source order: receive from the channel;
resolve an empty page (counter decrement); fail a fetch (counter decrement,
task skipped); increment the counter for the follow-up of a non-empty page;
send the follow-up task; decrement the counter for the finished task. -/
inductive SchedStep (numPages : Nat → Nat) : Sched → Sched → Prop where
  | dequeue (q : List PageTask) (t : PageTask) (wl wr : List WState)
      (p : Int) (r : List Nat) (k : Bool) :
      SchedStep numPages
        ⟨t :: q, wl ++ WState.idle :: wr, p, r, k⟩
        ⟨q, wl ++ WState.got t :: wr, p, r, k⟩
  | finishEmpty (q : List PageTask) (t : PageTask) (wl wr : List WState)
      (p : Int) (r : List Nat) (k : Bool) (he : numPages t.cat < t.page) :
      SchedStep numPages
        ⟨q, wl ++ WState.got t :: wr, p, r, k⟩
        ⟨q, wl ++ WState.idle :: wr, p - 1, t.cat :: r, k⟩
  | fail (q : List PageTask) (t : PageTask) (wl wr : List WState)
      (p : Int) (r : List Nat) (k : Bool) :
      SchedStep numPages
        ⟨q, wl ++ WState.got t :: wr, p, r, k⟩
        ⟨q, wl ++ WState.idle :: wr, p - 1, r, true⟩
  | incr (q : List PageTask) (t : PageTask) (wl wr : List WState)
      (p : Int) (r : List Nat) (k : Bool) (hne : t.page ≤ numPages t.cat) :
      SchedStep numPages
        ⟨q, wl ++ WState.got t :: wr, p, r, k⟩
        ⟨q, wl ++ WState.incremented t :: wr, p + 1, r, k⟩
  | send (q : List PageTask) (t : PageTask) (wl wr : List WState)
      (p : Int) (r : List Nat) (k : Bool) :
      SchedStep numPages
        ⟨q, wl ++ WState.incremented t :: wr, p, r, k⟩
        ⟨q ++ [⟨t.cat, t.page + 1⟩], wl ++ WState.enqueued t :: wr, p, r, k⟩
  | retire (q : List PageTask) (t : PageTask) (wl wr : List WState)
      (p : Int) (r : List Nat) (k : Bool) :
      SchedStep numPages
        ⟨q, wl ++ WState.enqueued t :: wr, p, r, k⟩
        ⟨q, wl ++ WState.idle :: wr, p - 1, r, k⟩

/-- Reachability from the seeded initial state. -/
def SchedReach (numPages : Nat → Nat) (cats : List Nat) (w : Nat)
    (s : Sched) : Prop :=
  Relation.ReflTransGen (SchedStep numPages) (schedInit cats w) s

/-- Number of workers holding a freshly dequeued task. -/
def countGot (ws : List WState) : Nat :=
  ws.countP fun w => match w with | WState.got _ => true | _ => false

/-- Number of workers between the increment for the follow-up and its send. -/
def countIncr (ws : List WState) : Nat :=
  ws.countP fun w => match w with | WState.incremented _ => true | _ => false

/-- Number of workers between the send of a follow-up and the decrement for
the finished task. -/
def countEnq (ws : List WState) : Nat :=
  ws.countP fun w => match w with | WState.enqueued _ => true | _ => false

/-- The category of the task a worker is actively responsible for before the
follow-up of that task has been sent, if any. -/
def activeCat : WState → Option Nat
  | WState.got t => some t.cat
  | WState.incremented t => some t.cat
  | _ => none

/-- Counter invariant: the pending counter equals the number of queued
tasks, plus one per worker holding an unretired task, plus one more per
worker whose follow-up increment has happened but whose follow-up has not
yet been sent. -/
def CounterInv (s : Sched) : Prop :=
  s.pending = (s.queue.length : Int) + (countGot s.workers : Int)
    + 2 * (countIncr s.workers : Int) + (countEnq s.workers : Int)

/-- Progress invariant: every seeded category is either resolved, or some
task was skipped, or a task of that category is still in the queue or
actively held by a worker. -/
def ProgressInv (cats : List Nat) (s : Sched) : Prop :=
  ∀ c ∈ cats, c ∈ s.resolved ∨ s.skipped = true ∨
    (∃ t ∈ s.queue, t.cat = c) ∨ (∃ w ∈ s.workers, activeCat w = some c)

/-! ## Run pipelines and fatal-error control flow -/

/-- Control flow of the run function of the G variant around category
discovery (phases 1 to 3): a discovery request failure aborts with an error
before any worker is launched; otherwise the run proceeds through listing
collection, global URL deduplication, the detail worker phase and the final
sorted write, whatever the number of categories.  The external collaborators
are abstracted as the listing result per category (collect) and the detail
page of each entry (pages); the worker completion order is irrelevant to the
result at this level because the final write sorts. -/
def runG (catsRes : Option (List (String × String)))
    (collect : String → String → List ProductEntry)
    (pages : ProductEntry → RawG) : Except String (List Product) :=
  match catsRes with
  | none => Except.error "error obteniendo categorias"
  | some cats =>
      let allEntries :=
        dedupEntries [] ((cats.map fun c => collect c.1 c.2).flatten)
      Except.ok (sortProducts (allEntries.map fun e => scrapeProductG (pages e) e))

/-- Control flow of the main function of the P2 variant before the run
function is called: a discovery failure is fatal, a discovery returning zero
categories is fatal, and only otherwise is the run function (worker pool and
scheduler) entered, here marked by the ok value. -/
def mainFlowP2 (catsRes : Option (List (String × String))) :
    Except String Unit :=
  match catsRes with
  | none => Except.error "Error obteniendo categorias"
  | some cats =>
      if cats.length = 0 then Except.error "No se encontraron categorias"
      else Except.ok ()

/-! ## Concrete inputs used by the claim evaluations -/

/-- An API product with every optional datum absent. -/
def apBase : APIProduct :=
  { name := "Producto"
    permalink := "https://buytiti.com/producto/x"
    onSale := false
    prices := { price := "", regularPrice := "", salePrice := "",
                currencyMinorUnit := 2 }
    images := []
    categories := []
    stockAvailability := { text := "", className := "" } }

/-- API product with price 2700 in minor units (two decimals) and no sale. -/
def apC3a : APIProduct :=
  { apBase with
    prices := { price := "2700", regularPrice := "2700", salePrice := "",
                currencyMinorUnit := 2 } }

/-- API product with regular price 30.00, sale price 24.50 and the on-sale
flag set. -/
def apC3b : APIProduct :=
  { apBase with
    onSale := true
    prices := { price := "2450", regularPrice := "3000", salePrice := "2450",
                currencyMinorUnit := 2 } }

/-- API product on sale whose sale price 30.00 exceeds its regular price
20.00. -/
def apC4x : APIProduct :=
  { apBase with
    onSale := true
    prices := { price := "3000", regularPrice := "2000", salePrice := "3000",
                currencyMinorUnit := 2 } }

/-- API product whose on-sale flag is set although sale, regular and current
price coincide at 20.00. -/
def apC5x : APIProduct :=
  { apBase with
    onSale := true
    prices := { price := "2000", regularPrice := "2000", salePrice := "2000",
                currencyMinorUnit := 2 } }

/-- Listing entry with no category and no thumbnail. -/
def entry0 : ProductEntry :=
  { url := "https://www.my-shop.mx/shop/producto-1", imagen64 := "",
    category := "" }

/-- Listing entry discovered under the category Cases. -/
def entryCases : ProductEntry :=
  { url := "https://www.my-shop.mx/shop/producto-1", imagen64 := "",
    category := "Cases" }

/-- Empty extraction result of a detail page in the G variant. -/
def rawGEmpty : RawG :=
  { h1Text := "", metaPriceContent := none, priceSelTexts := [],
    spanTexts := [], delText := "", availTexts := [], bodyText := "",
    detailImgSrc := "", breadcrumbTexts := [] }

/-- Empty extraction result of a detail page in the R variant. -/
def rawREmpty : RawR :=
  { itempropName := none, h1Inner := none, hiddenPrice := none,
    visiblePrice := none, listPriceCap := none, imgSrcCap := none,
    breadcrumbCaps := [], body := "" }

/-- G-variant detail page whose availability widget carries the free-form
text Quedan 3 piezas. -/
def rawGC6 : RawG := { rawGEmpty with availTexts := ["Quedan 3 piezas"] }

/-- G-variant detail page with the breadcrumb trail Home, Phones, Cases,
My Product. -/
def rawGC7 : RawG :=
  { rawGEmpty with
    breadcrumbTexts := ["Home", "Phones", "Cases", "My Product"] }

/-- R-variant detail page with the same breadcrumb trail as rawGC7. -/
def rawRC7 : RawR :=
  { rawREmpty with
    breadcrumbCaps := ["Home", "Phones", "Cases", "My Product"] }

/-- A product of category Cables named Cable USB. -/
def prodA : Product :=
  { nombre := "Cable USB", precio := 0, precioOriginal := 0,
    enOferta := false, stock := "Disponible", imagen := "", imagen64 := "",
    link := "https://www.my-shop.mx/shop/cable-usb-1", categoria := "Cables",
    subcategorias := ["Cables"] }

/-- A distinct product sharing the category and name of prodA. -/
def prodB : Product :=
  { prodA with link := "https://www.my-shop.mx/shop/cable-usb-2" }

/-! ## Order lemmas for the sort relation -/

theorem charListLt_irrefl : ∀ as, charListLt as as = false := by
  intro as
  induction as with
  | nil => rfl
  | cons a as ih => simp [charListLt, ih]

theorem charListLt_trans : ∀ as bs cs, charListLt as bs = true →
    charListLt bs cs = true → charListLt as cs = true := by
  intro as
  induction as with
  | nil =>
      intro bs cs h1 h2
      cases bs with
      | nil => exact h2
      | cons b bs =>
          cases cs with
          | nil => simp [charListLt] at h2
          | cons c cs => rfl
  | cons a as ih =>
      intro bs cs h1 h2
      cases bs with
      | nil => simp [charListLt] at h1
      | cons b bs =>
          cases cs with
          | nil => simp [charListLt] at h2
          | cons c cs =>
              simp only [charListLt, Bool.or_eq_true, Bool.and_eq_true,
                decide_eq_true_eq, beq_iff_eq] at h1 h2 ⊢
              rcases h1 with h1 | ⟨h1e, h1r⟩
              · rcases h2 with h2 | ⟨h2e, h2r⟩
                · exact Or.inl (Nat.lt_trans h1 h2)
                · exact Or.inl (h2e ▸ h1)
              · rcases h2 with h2 | ⟨h2e, h2r⟩
                · exact Or.inl (h1e ▸ h2)
                · exact Or.inr ⟨h1e.trans h2e, ih bs cs h1r h2r⟩

theorem charListLt_conn : ∀ as bs, charListLt as bs = false →
    charListLt bs as = false → as = bs := by
  intro as
  induction as with
  | nil =>
      intro bs h1 _
      cases bs with
      | nil => rfl
      | cons b bs => simp [charListLt] at h1
  | cons a as ih =>
      intro bs h1 h2
      cases bs with
      | nil => simp [charListLt] at h2
      | cons b bs =>
          simp only [charListLt, Bool.or_eq_false_iff, Bool.and_eq_false_iff,
            decide_eq_false_iff_not, beq_eq_false_iff_ne, ne_eq,
            Bool.not_eq_true] at h1 h2
          have hab : a.toNat = b.toNat := by omega
          have : a = b := Char.eq_of_val_eq (UInt32.ext hab)
          subst this
          rcases h1.2 with h | h
          · exact absurd rfl h
          · rcases h2.2 with h' | h'
            · exact absurd rfl h'
            · exact congrArg (a :: ·) (ih bs h h')

theorem strLtB_trans (a b c : String) (h1 : strLtB a b = true)
    (h2 : strLtB b c = true) : strLtB a c = true :=
  charListLt_trans a.data b.data c.data h1 h2

theorem strLtB_conn (a b : String) (h1 : strLtB a b = false)
    (h2 : strLtB b a = false) : a = b := by
  cases a with
  | mk da =>
      cases b with
      | mk db => exact congrArg String.mk (charListLt_conn da db h1 h2)

theorem strLtB_asymm (a b : String) (h : strLtB a b = true) :
    strLtB b a = false := by
  cases hb : strLtB b a with
  | false => rfl
  | true =>
      have := charListLt_trans a.data b.data a.data h hb
      rw [charListLt_irrefl] at this
      exact absurd this (by simp)


theorem prodLessB_key (p q : Product) :
    prodLessB p q = keyLtB (prodKey p) (prodKey q) := rfl

theorem keyLtB_conn (a b : String × String) (h1 : keyLtB a b = false)
    (h2 : keyLtB b a = false) : a = b := by
  unfold keyLtB at h1 h2
  by_cases hc : a.1 = b.1
  · simp only [hc, ne_eq, not_true_eq_false, if_neg, ite_false] at h1 h2
    have h1' : strLtB a.2 b.2 = false := by simpa [hc] using h1
    have h2' : strLtB b.2 a.2 = false := by simpa [hc] using h2
    exact Prod.ext hc (strLtB_conn _ _ h1' h2')
  · rw [if_pos hc] at h1
    rw [if_pos (Ne.symm hc)] at h2
    exact absurd (strLtB_conn _ _ h1 h2) hc

theorem keyLtB_asymm (a b : String × String) (h : keyLtB a b = true) :
    keyLtB b a = false := by
  unfold keyLtB at h ⊢
  by_cases hc : a.1 = b.1
  · simp only [hc, ne_eq, not_true_eq_false, ite_false] at h ⊢
    have h' : strLtB a.2 b.2 = true := by simpa [hc] using h
    simpa [hc] using strLtB_asymm _ _ h'
  · rw [if_pos hc] at h
    rw [if_pos (Ne.symm hc)]
    exact strLtB_asymm _ _ h

theorem keyLtB_trans (a b c : String × String) (h1 : keyLtB a b = true)
    (h2 : keyLtB b c = true) : keyLtB a c = true := by
  unfold keyLtB at h1 h2 ⊢
  by_cases hab : a.1 = b.1
  · by_cases hbc : b.1 = c.1
    · have hac : a.1 = c.1 := hab.trans hbc
      have h1' : strLtB a.2 b.2 = true := by simpa [hab] using h1
      have h2' : strLtB b.2 c.2 = true := by simpa [hbc] using h2
      simpa [hac] using strLtB_trans _ _ _ h1' h2'
    · rw [if_pos hbc] at h2
      have hac : a.1 ≠ c.1 := fun h => hbc (hab ▸ h)
      rw [if_pos hac]
      exact hab ▸ h2
  · rw [if_pos hab] at h1
    by_cases hbc : b.1 = c.1
    · have hac : a.1 ≠ c.1 := fun h => hab (h.trans hbc.symm)
      rw [if_pos hac]
      exact hbc ▸ h1
    · rw [if_pos hbc] at h2
      have h3 := strLtB_trans _ _ _ h1 h2
      have hac : a.1 ≠ c.1 := by
        intro h
        rw [h] at h1
        rw [strLtB_asymm _ _ h2] at h1
        exact absurd h1 (by simp)
      rw [if_pos hac]
      exact h3

theorem prodLe_total : ∀ p q : Product, ProdLe p q ∨ ProdLe q p := by
  intro p q
  unfold ProdLe
  cases h : prodLessB q p with
  | false => exact Or.inl rfl
  | true =>
      right
      rw [prodLessB_key] at h ⊢
      exact keyLtB_asymm _ _ h

theorem prodLe_trans : ∀ p q r : Product, ProdLe p q → ProdLe q r →
    ProdLe p r := by
  intro p q r h1 h2
  unfold ProdLe at h1 h2 ⊢
  rw [prodLessB_key] at h1 h2 ⊢
  cases hrp : keyLtB (prodKey r) (prodKey p) with
  | false => rfl
  | true =>
      exfalso
      cases hpq : keyLtB (prodKey p) (prodKey q) with
      | false =>
          have hk : prodKey p = prodKey q := keyLtB_conn _ _ hpq h1
          rw [hk] at hrp
          exact absurd hrp (by simp [h2])
      | true =>
          have := keyLtB_trans _ _ _ hrp hpq
          exact absurd this (by simp [h2])

/-- A sorted list is determined by its multiset of elements once all sort
keys are distinct: two sorted permutations of each other with no duplicate
key are equal as lists. -/
theorem sorted_perm_nodup_key_eq :
    ∀ (l₁ l₂ : List Product), l₁.Perm l₂ →
      l₁.Sorted ProdLe → l₂.Sorted ProdLe →
      (l₁.map prodKey).Nodup → l₁ = l₂ := by
  intro l₁
  induction l₁ with
  | nil =>
      intro l₂ hp _ _ _
      exact (List.Perm.nil_eq hp).symm ▸ rfl
  | cons a t₁ ih =>
      intro l₂ hp hs₁ hs₂ hk
      cases l₂ with
      | nil => exact absurd hp.symm (by simp)
      | cons b t₂ =>
          have hk' : prodKey a ∉ t₁.map prodKey ∧ (t₁.map prodKey).Nodup := by
            rw [List.map_cons, List.nodup_cons] at hk
            exact hk
          have hab : a = b := by
            by_contra hne
            have hbmem : b ∈ t₁ := by
              have : b ∈ a :: t₁ := hp.mem_iff.mpr (by simp)
              rcases List.mem_cons.mp this with h | h
              · exact absurd h.symm hne
              · exact h
            have hamem : a ∈ t₂ := by
              have : a ∈ b :: t₂ := hp.mem_iff.mp (by simp)
              rcases List.mem_cons.mp this with h | h
              · exact absurd h hne
              · exact h
            have h1 : ProdLe a b := (List.sorted_cons.mp hs₁).1 b hbmem
            have h2 : ProdLe b a := (List.sorted_cons.mp hs₂).1 a hamem
            have hkey : prodKey b = prodKey a := by
              unfold ProdLe at h1 h2
              rw [prodLessB_key] at h1 h2
              exact keyLtB_conn _ _ h1 h2
            have : prodKey a ∈ t₁.map prodKey :=
              hkey ▸ List.mem_map_of_mem prodKey hbmem
            exact absurd this hk'.1
          subst hab
          have ht : t₁ = t₂ :=
            ih t₂ (hp.cons_inv)
              (List.sorted_cons.mp hs₁).2 (List.sorted_cons.mp hs₂).2 hk'.2
          rw [ht]

theorem exists_mem_ctx {α} (P : α → Prop) (wl wr : List α) (x : α) :
    (∃ w ∈ wl ++ x :: wr, P w) ↔
      P x ∨ (∃ w ∈ wl, P w) ∨ (∃ w ∈ wr, P w) := by
  constructor
  · rintro ⟨w, hw, hp⟩
    rcases List.mem_append.mp hw with h | h
    · exact Or.inr (Or.inl ⟨w, h, hp⟩)
    · rcases List.mem_cons.mp h with h' | h'
      · exact Or.inl (h' ▸ hp)
      · exact Or.inr (Or.inr ⟨w, h', hp⟩)
  · rintro (h | ⟨w, hw, hp⟩ | ⟨w, hw, hp⟩)
    · exact ⟨x, List.mem_append_right _ (List.mem_cons_self _ _), h⟩
    · exact ⟨w, List.mem_append_left _ hw, hp⟩
    · exact ⟨w, List.mem_append_right _ (List.mem_cons_of_mem _ hw), hp⟩

theorem counterInv_init (cats : List Nat) (w : Nat) :
    CounterInv (schedInit cats w) := by
  unfold CounterInv schedInit
  simp only [List.length_map]
  have hg : countGot (List.replicate w WState.idle) = 0 := by
    unfold countGot
    induction w with
    | zero => rfl
    | succ n ih => simp [List.replicate_succ, List.countP_cons, ih]
  have hi : countIncr (List.replicate w WState.idle) = 0 := by
    unfold countIncr
    induction w with
    | zero => rfl
    | succ n ih => simp [List.replicate_succ, List.countP_cons, ih]
  have he : countEnq (List.replicate w WState.idle) = 0 := by
    unfold countEnq
    induction w with
    | zero => rfl
    | succ n ih => simp [List.replicate_succ, List.countP_cons, ih]
  simp [hg, hi, he]

theorem progressInv_init (cats : List Nat) (w : Nat) :
    ProgressInv cats (schedInit cats w) := by
  intro c hc
  refine Or.inr (Or.inr (Or.inl ⟨⟨c, 1⟩, ?_, rfl⟩))
  simpa [schedInit] using List.mem_map_of_mem (fun c => (⟨c, 1⟩ : PageTask)) hc

theorem counterInv_step {np : Nat → Nat} {s s' : Sched}
    (h : SchedStep np s s') (hi : CounterInv s) : CounterInv s' := by
  cases h with
  | dequeue q t wl wr p r k =>
      unfold CounterInv at hi ⊢
      simp only [countGot, countIncr, countEnq, List.countP_append,
        List.countP_cons, List.length_cons, List.length_append] at hi ⊢
      push_cast at hi ⊢
      omega
  | finishEmpty q t wl wr p r k he =>
      unfold CounterInv at hi ⊢
      simp only [countGot, countIncr, countEnq, List.countP_append,
        List.countP_cons, List.length_cons, List.length_append] at hi ⊢
      push_cast at hi ⊢
      omega
  | fail q t wl wr p r k =>
      unfold CounterInv at hi ⊢
      simp only [countGot, countIncr, countEnq, List.countP_append,
        List.countP_cons, List.length_cons, List.length_append] at hi ⊢
      push_cast at hi ⊢
      omega
  | incr q t wl wr p r k hne =>
      unfold CounterInv at hi ⊢
      simp only [countGot, countIncr, countEnq, List.countP_append,
        List.countP_cons, List.length_cons, List.length_append] at hi ⊢
      push_cast at hi ⊢
      omega
  | send q t wl wr p r k =>
      unfold CounterInv at hi ⊢
      simp only [countGot, countIncr, countEnq, List.countP_append,
        List.countP_cons, List.length_cons, List.length_append,
        List.length_nil] at hi ⊢
      push_cast at hi ⊢
      omega
  | retire q t wl wr p r k =>
      unfold CounterInv at hi ⊢
      simp only [countGot, countIncr, countEnq, List.countP_append,
        List.countP_cons, List.length_cons, List.length_append] at hi ⊢
      push_cast at hi ⊢
      omega

theorem progressInv_step {np : Nat → Nat} {cats : List Nat} {s s' : Sched}
    (h : SchedStep np s s') (hi : ProgressInv cats s) :
    ProgressInv cats s' := by
  cases h with
  | dequeue q t wl wr p r k =>
      intro c hc
      rcases hi c hc with hr | hk | ⟨t', ht', hcat⟩ | hw
      · exact Or.inl hr
      · exact Or.inr (Or.inl hk)
      · rcases List.mem_cons.mp ht' with h' | h'
        · subst h'
          refine Or.inr (Or.inr (Or.inr ?_))
          exact (exists_mem_ctx _ _ _ _).mpr (Or.inl (by simp [activeCat, hcat]))
        · exact Or.inr (Or.inr (Or.inl ⟨t', h', hcat⟩))
      · rcases (exists_mem_ctx _ _ _ _).mp hw with hx | hrest
        · simp [activeCat] at hx
        · exact Or.inr (Or.inr (Or.inr
            ((exists_mem_ctx _ _ _ _).mpr (Or.inr hrest))))
  | finishEmpty q t wl wr p r k he =>
      intro c hc
      rcases hi c hc with hr | hk | ⟨t', ht', hcat⟩ | hw
      · exact Or.inl (List.mem_cons_of_mem _ hr)
      · exact Or.inr (Or.inl hk)
      · exact Or.inr (Or.inr (Or.inl ⟨t', ht', hcat⟩))
      · rcases (exists_mem_ctx _ _ _ _).mp hw with hx | hrest
        · simp only [activeCat, Option.some.injEq] at hx
          exact Or.inl (hx ▸ List.mem_cons_self _ _)
        · exact Or.inr (Or.inr (Or.inr
            ((exists_mem_ctx _ _ _ _).mpr (Or.inr hrest))))
  | fail q t wl wr p r k =>
      intro c hc
      exact Or.inr (Or.inl rfl)
  | incr q t wl wr p r k hne =>
      intro c hc
      rcases hi c hc with hr | hk | ⟨t', ht', hcat⟩ | hw
      · exact Or.inl hr
      · exact Or.inr (Or.inl hk)
      · exact Or.inr (Or.inr (Or.inl ⟨t', ht', hcat⟩))
      · rcases (exists_mem_ctx _ _ _ _).mp hw with hx | hrest
        · refine Or.inr (Or.inr (Or.inr
            ((exists_mem_ctx _ _ _ _).mpr (Or.inl ?_))))
          simpa [activeCat] using hx
        · exact Or.inr (Or.inr (Or.inr
            ((exists_mem_ctx _ _ _ _).mpr (Or.inr hrest))))
  | send q t wl wr p r k =>
      intro c hc
      rcases hi c hc with hr | hk | ⟨t', ht', hcat⟩ | hw
      · exact Or.inl hr
      · exact Or.inr (Or.inl hk)
      · exact Or.inr (Or.inr (Or.inl
          ⟨t', List.mem_append_left _ ht', hcat⟩))
      · rcases (exists_mem_ctx _ _ _ _).mp hw with hx | hrest
        · simp only [activeCat, Option.some.injEq] at hx
          refine Or.inr (Or.inr (Or.inl ⟨⟨t.cat, t.page + 1⟩, ?_, hx⟩))
          exact List.mem_append_right _ (List.mem_singleton.mpr rfl)
        · exact Or.inr (Or.inr (Or.inr
            ((exists_mem_ctx _ _ _ _).mpr (Or.inr hrest))))
  | retire q t wl wr p r k =>
      intro c hc
      rcases hi c hc with hr | hk | ⟨t', ht', hcat⟩ | hw
      · exact Or.inl hr
      · exact Or.inr (Or.inl hk)
      · exact Or.inr (Or.inr (Or.inl ⟨t', ht', hcat⟩))
      · rcases (exists_mem_ctx _ _ _ _).mp hw with hx | hrest
        · simp [activeCat] at hx
        · exact Or.inr (Or.inr (Or.inr
            ((exists_mem_ctx _ _ _ _).mpr (Or.inr hrest))))

theorem schedReach_inv {np : Nat → Nat} {cats : List Nat} {w : Nat}
    {s : Sched} (h : SchedReach np cats w s) :
    CounterInv s ∧ ProgressInv cats s := by
  unfold SchedReach at h
  induction h with
  | refl => exact ⟨counterInv_init cats w, progressInv_init cats w⟩
  | tail _ hstep ih =>
      exact ⟨counterInv_step hstep ih.1, progressInv_step hstep ih.2⟩

/-! ## Helper lemmas for deduplication -/

theorem dedupEntries_nodup (l : List ProductEntry) : ∀ seen : List String,
    ((dedupEntries seen l).map ProductEntry.url).Nodup ∧
    ∀ u ∈ (dedupEntries seen l).map ProductEntry.url, u ∉ seen := by
  induction l with
  | nil => intro seen; exact ⟨List.nodup_nil, by simp [dedupEntries]⟩
  | cons e rest ih =>
      intro seen
      unfold dedupEntries
      by_cases hm : e.url ∈ seen
      · rw [if_pos hm]
        exact ih seen
      · rw [if_neg hm]
        obtain ⟨hnd, hout⟩ := ih (e.url :: seen)
        constructor
        · rw [List.map_cons, List.nodup_cons]
          refine ⟨fun hin => ?_, hnd⟩
          exact hout e.url hin (List.mem_cons_self _ _)
        · intro u hu
          rw [List.map_cons, List.mem_cons] at hu
          rcases hu with h | h
          · exact h ▸ hm
          · intro hus
            exact hout u h (List.mem_cons_of_mem _ hus)

theorem nodup_of_subperm {α : Type} {l₁ l₂ : List α}
    (h : List.Subperm l₁ l₂) (h₂ : l₂.Nodup) : l₁.Nodup := by
  obtain ⟨l, hperm, hsub⟩ := h
  exact hperm.nodup_iff.mp (List.Nodup.sublist hsub h₂)

theorem scrapeProductG_link (raw : RawG) (e : ProductEntry) :
    (scrapeProductG raw e).link = e.url := rfl

/-! ## Claims -/

/-- C1: in the dynamic-pagination scheduler of part_002, a worker finishing
a non-empty page increments the pending counter for the follow-up page task
strictly before decrementing the counter for the task being retired (the
transition system SchedStep encodes exactly this program order), so in every
reachable state a worker holding unretired work implies a strictly positive
counter — the counter never transiently reads zero while a follow-up is
about to be enqueued — and, in a run in which no task was skipped after
exhausting its retries, the counter reaches zero only once the terminating
empty page of every seeded category has been resolved. -/
theorem c1_scheduler_safe_termination (np : Nat → Nat) (cats : List Nat)
    (w : Nat) (s : Sched) (hr : SchedReach np cats w s) :
    (∀ x ∈ s.workers, x ≠ WState.idle → 0 < s.pending) ∧
    (s.pending = 0 → s.skipped = false → ∀ c ∈ cats, c ∈ s.resolved) := by
  obtain ⟨hcnt, hprog⟩ := schedReach_inv hr
  unfold CounterInv at hcnt
  have hql : (0 : Int) ≤ (s.queue.length : Int) := Int.ofNat_nonneg _
  constructor
  · intro x hx hne
    cases x with
    | idle => exact absurd rfl hne
    | got t =>
        have h1 : 0 < countGot s.workers := by
          unfold countGot
          exact List.countP_pos_iff.mpr ⟨_, hx, rfl⟩
        omega
    | incremented t =>
        have h1 : 0 < countIncr s.workers := by
          unfold countIncr
          exact List.countP_pos_iff.mpr ⟨_, hx, rfl⟩
        omega
    | enqueued t =>
        have h1 : 0 < countEnq s.workers := by
          unfold countEnq
          exact List.countP_pos_iff.mpr ⟨_, hx, rfl⟩
        omega
  · intro hp hk c hc
    rcases hprog c hc with hres | hkk | ⟨t, ht, _⟩ | ⟨x, hx, hact⟩
    · exact hres
    · rw [hk] at hkk
      exact absurd hkk (by simp)
    · exfalso
      have hq : s.queue.length = 0 := by omega
      rw [List.length_eq_zero] at hq
      rw [hq] at ht
      exact absurd ht (List.not_mem_nil t)
    · exfalso
      cases x with
      | idle => simp [activeCat] at hact
      | enqueued t => simp [activeCat] at hact
      | got t =>
          have h1 : 0 < countGot s.workers := by
            unfold countGot
            exact List.countP_pos_iff.mpr ⟨_, hx, rfl⟩
          omega
      | incremented t =>
          have h1 : 0 < countIncr s.workers := by
            unfold countIncr
            exact List.countP_pos_iff.mpr ⟨_, hx, rfl⟩
          omega

/-- Witness for C1: the concrete run with one category whose first page is
already empty and one worker; after the dequeue and the empty-page
resolution the counter is zero, nothing was skipped, and the category is
resolved. -/
theorem c1_witness :
    0 ∈ (Sched.mk [] [WState.idle] ((1 : Int) - 1) [0] false).resolved := by
  have h1 : SchedStep (fun _ => 0) (schedInit [0] 1)
      (Sched.mk [] [WState.got ⟨0, 1⟩] 1 [] false) :=
    SchedStep.dequeue [] ⟨0, 1⟩ [] [] 1 [] false
  have h2 : SchedStep (fun _ => 0)
      (Sched.mk [] [WState.got ⟨0, 1⟩] 1 [] false)
      (Sched.mk [] [WState.idle] ((1 : Int) - 1) [0] false) :=
    SchedStep.finishEmpty [] ⟨0, 1⟩ [] [] 1 [] false (by decide)
  have hr : SchedReach (fun _ => 0) [0] 1
      (Sched.mk [] [WState.idle] ((1 : Int) - 1) [0] false) :=
    Relation.ReflTransGen.tail (Relation.ReflTransGen.tail
      Relation.ReflTransGen.refl h1) h2
  exact (c1_scheduler_safe_termination (fun _ => 0) [0] 1 _ hr).2
    (by decide) rfl 0 (by decide)

/-- Evaluation helper: on a plain non-negative integer string, convertPrice
with minor unit 2 divides by 100 (the rounding is exact). -/
theorem convertPrice_eval (s : String) (v : Int) (hs : ¬(s = ""))
    (ha : goAtoi s = some v) (hv : 0 ≤ v) :
    convertPrice s 2 = (v : ℚ) / 100 := by
  unfold convertPrice
  rw [if_neg hs, ha]
  show goRound ((v : ℚ) / (10 : ℚ) ^ (2 : Int) * 100) / 100 = (v : ℚ) / 100
  have h1 : ((v : ℚ) / (10 : ℚ) ^ (2 : Int) * 100) = (v : ℚ) := by
    have h10 : ((10 : ℚ) ^ (2 : Int)) = 100 := by norm_num
    rw [h10]
    field_simp
  rw [h1]
  unfold goRound goRoundZ
  rw [if_neg (not_lt.mpr (by exact_mod_cast hv))]
  have h2 : ⌊(v : ℚ) + 1 / 2⌋ = v := by
    rw [add_comm, Int.floor_add_int]
    norm_num
  rw [h2]

/-- C3: the P2 normalizer maps an API product with price string 2700, minor
unit 2 and no sale to effective price 27, list price 27 and the on-sale flag
clear, and an API product with regular price 30.00, sale price 24.50 and the
on-sale flag set to effective price 24.50, list price 30.00 and the on-sale
flag set. -/
theorem c3_price_normalization :
    ((parseProducts [apC3a] "Accesorios").map fun p =>
        (p.precio, p.precioOriginal, p.enOferta)) = [(27, 27, false)] ∧
    ((parseProducts [apC3b] "Accesorios").map fun p =>
        (p.precio, p.precioOriginal, p.enOferta)) = [(49/2, 30, true)] := by
  have h2700 : convertPrice "2700" 2 = 27 := by
    rw [convertPrice_eval "2700" 2700 (by decide) (by decide) (by decide)]
    norm_num
  have h2450 : convertPrice "2450" 2 = 49/2 := by
    rw [convertPrice_eval "2450" 2450 (by decide) (by decide) (by decide)]
    norm_num
  have h3000 : convertPrice "3000" 2 = 30 := by
    rw [convertPrice_eval "3000" 3000 (by decide) (by decide) (by decide)]
    norm_num
  have hb : (("2450" : String) == "") = false := by decide
  constructor
  · simp [parseProducts, apC3a, apBase, h2700]
  · simp [parseProducts, apC3b, apBase, h2450, h3000, hb]

/-- C4 counterexample: the P2 normalizer applied to a product that is on
sale with sale price 30.00 and regular price 20.00 outputs list price 20
strictly below the effective price 30: the resolved list price is the
converted regular price as-is, not the maximum of sale and regular price,
and list price >= price fails. -/
theorem c4_counterexample :
    ∃ p ∈ parseProducts [apC4x] "Celulares",
      p.precioOriginal < p.precio := by
  have h3000 : convertPrice "3000" 2 = 30 := by
    rw [convertPrice_eval "3000" 3000 (by decide) (by decide) (by decide)]
    norm_num
  have h2000 : convertPrice "2000" 2 = 20 := by
    rw [convertPrice_eval "2000" 2000 (by decide) (by decide) (by decide)]
    norm_num
  have hb : (("3000" : String) == "") = false := by decide
  simp only [parseProducts, List.map_cons, List.map_nil, List.mem_cons,
    List.not_mem_nil, or_false]
  refine ⟨_, rfl, ?_⟩
  simp only [apC4x, apBase, hb]
  simp [h3000, h2000]
  norm_num

/-- C4 amended: when a sale price exists the sale price is the effective
price, but only the regex HTML variant resolves the list price as the
maximum of the extracted list price and the effective price (hence there
list price >= price always); the goquery variant takes the strikethrough
price and the API variant the converted regular price as-is; in every
variant, when no sale information exists (no strikethrough text, no
list-price capture, and for the API variant a regular price string equal to
the price string with no effective sale), the list price equals the price
exactly. -/
theorem c4_list_price_amended :
    (∀ (raw : RawR) (e : ProductEntry),
      (scrapeProduct000 raw e).precio ≤
          (scrapeProduct000 raw e).precioOriginal ∧
      (∀ m, raw.listPriceCap = some m →
        (scrapeProduct000 raw e).precioOriginal =
          max ((scrapeProduct000 raw e).precio) (parsePriceR m)) ∧
      (raw.listPriceCap = none →
        (scrapeProduct000 raw e).precioOriginal =
          (scrapeProduct000 raw e).precio)) ∧
    (∀ (raw : RawG) (e : ProductEntry), trimS raw.delText = "" →
      (scrapeProductG raw e).precioOriginal = (scrapeProductG raw e).precio) ∧
    (∀ (ap : APIProduct) (cat : String) (p : Product),
      p ∈ parseProducts [ap] cat →
      ap.prices.regularPrice = ap.prices.price →
      (ap.onSale = false ∨ ap.prices.salePrice = "") →
      p.precioOriginal = p.precio) := by
  refine ⟨?_, ?_, ?_⟩
  · intro raw e
    cases hm : raw.listPriceCap with
    | none =>
        refine ⟨?_, ?_, ?_⟩
        · simp [scrapeProduct000, hm]
        · intro m hm'
          exact absurd hm' (by simp)
        · intro _
          simp [scrapeProduct000, hm]
    | some m =>
        have hpo : (scrapeProduct000 raw e).precioOriginal =
            max ((scrapeProduct000 raw e).precio) (parsePriceR m) := by
          simp only [scrapeProduct000, hm]
          split_ifs with h
          · exact (max_eq_right (le_of_lt h)).symm
          · exact (max_eq_left (not_lt.mp h)).symm
        refine ⟨?_, ?_, ?_⟩
        · rw [hpo]
          exact le_max_left _ _
        · intro m' hm'
          cases Option.some.inj hm'
          exact hpo
        · intro hn
          exact absurd hn (by simp)
  · intro raw e h
    simp [scrapeProductG, h]
  · intro ap cat p hp hreg hns
    simp only [parseProducts, List.map_cons, List.map_nil, List.mem_cons,
      List.not_mem_nil, or_false] at hp
    subst hp
    have hcond : (ap.onSale && !(ap.prices.salePrice == "")) = false := by
      rcases hns with h | h
      · simp [h]
      · simp [h]
    simp [hcond, hreg]

/-- C5 counterexample: the P2 normalizer copies the on-sale flag from the
API record instead of deriving it from the price comparison: on a product
flagged on sale whose sale, regular and current prices all equal 20.00, the
output has the flag set while list price and effective price are equal. -/
theorem c5_counterexample :
    ∃ p ∈ parseProducts [apC5x] "Celulares",
      p.enOferta = true ∧ ¬(p.precio < p.precioOriginal) := by
  have h2000 : convertPrice "2000" 2 = 20 := by
    rw [convertPrice_eval "2000" 2000 (by decide) (by decide) (by decide)]
    norm_num
  have hb : (("2000" : String) == "") = false := by decide
  simp only [parseProducts, List.map_cons, List.map_nil, List.mem_cons,
    List.not_mem_nil, or_false]
  refine ⟨_, rfl, ?_⟩
  simp [apC5x, apBase, hb, h2000]

/-- C5 amended: in both HTML variants the on-sale flag is derived from the
price comparison — it is set exactly when the resolved list price strictly
exceeds the effective price — while the API variant copies the flag from the
API record, where the equivalence can fail. -/
theorem c5_on_sale_amended :
    (∀ (raw : RawR) (e : ProductEntry),
      ((scrapeProduct000 raw e).enOferta = true ↔
        (scrapeProduct000 raw e).precio <
          (scrapeProduct000 raw e).precioOriginal)) ∧
    (∀ (raw : RawG) (e : ProductEntry),
      ((scrapeProductG raw e).enOferta = true ↔
        (scrapeProductG raw e).precio <
          (scrapeProductG raw e).precioOriginal)) := by
  constructor
  · intro raw e
    cases hm : raw.listPriceCap with
    | none => simp [scrapeProduct000, hm]
    | some m =>
        simp only [scrapeProduct000, hm]
        split_ifs with h
        · simpa using h
        · simp
  · intro raw e
    by_cases h : trimS raw.delText = ""
    · simp [scrapeProductG, h]
    · simp [scrapeProductG, h]

/-- C6 counterexample: the goquery variant stores the text of the
availability widget verbatim when one is present, so the stock field is not
restricted to the three enumerated values and the body-marker priority is
not applied. -/
theorem c6_counterexample :
    (scrapeProductG rawGC6 entry0).stock = "Quedan 3 piezas" ∧
    (scrapeProductG rawGC6 entry0).stock ≠ "Agotado" ∧
    (scrapeProductG rawGC6 entry0).stock ≠ "Disponible" ∧
    (scrapeProductG rawGC6 entry0).stock ≠ "Desconocido" := by decide

/-- C6 amended: the regex variant resolves stock by the claimed priority
into exactly the three values Agotado, Disponible and Desconocido — explicit
does-not-exist marker first, then add-to-cart affordance, then unknown — and
the resolution never reads any price datum; the goquery variant applies this
priority only when the availability widget yields no text and otherwise
stores the widget text verbatim; the API variant stores the availability
text of the API record verbatim. -/
theorem c6_stock_amended :
    (∀ (raw : RawR) (e : ProductEntry),
      ((scrapeProduct000 raw e).stock = "Agotado" ∨
       (scrapeProduct000 raw e).stock = "Disponible" ∨
       (scrapeProduct000 raw e).stock = "Desconocido") ∧
      (strContains raw.body "Esta combinación no existe" = true →
        (scrapeProduct000 raw e).stock = "Agotado") ∧
      (strContains raw.body "Esta combinación no existe" = false →
        strContains raw.body "id=\"add_to_cart\"" = true →
        (scrapeProduct000 raw e).stock = "Disponible") ∧
      (strContains raw.body "Esta combinación no existe" = false →
        strContains raw.body "id=\"add_to_cart\"" = false →
        (scrapeProduct000 raw e).stock = "Desconocido") ∧
      (∀ hp vp lp,
        (scrapeProduct000
          (RawR.mk raw.itempropName raw.h1Inner hp vp lp raw.imgSrcCap
            raw.breadcrumbCaps raw.body) e).stock =
          (scrapeProduct000 raw e).stock)) ∧
    (∀ (raw : RawG) (e : ProductEntry),
      firstNonemptyTrim raw.availTexts = "" →
      ((scrapeProductG raw e).stock = "Agotado" ∨
       (scrapeProductG raw e).stock = "Disponible" ∨
       (scrapeProductG raw e).stock = "Desconocido")) ∧
    (∀ (ap : APIProduct) (cat : String) (p : Product),
      p ∈ parseProducts [ap] cat →
      p.stock = ap.stockAvailability.text) := by
  refine ⟨?_, ?_, ?_⟩
  · intro raw e
    refine ⟨?_, ?_, ?_, ?_, ?_⟩
    · cases hc1 : strContains raw.body "Esta combinación no existe" <;>
        cases hc2 : strContains raw.body "id=\"add_to_cart\"" <;>
          simp [scrapeProduct000, hc1, hc2]
    · intro hc1
      simp [scrapeProduct000, hc1]
    · intro hc1 hc2
      simp [scrapeProduct000, hc1, hc2]
    · intro hc1 hc2
      simp [scrapeProduct000, hc1, hc2]
    · intro hp vp lp
      rfl
  · intro raw e h
    cases hc1 : strContains raw.bodyText "Esta combinación no existe" <;>
      cases hc2 : strContains raw.bodyText "Añadir al carrito" <;>
        cases hc3 : strContains raw.bodyText "Agregar al carrito" <;>
          simp [scrapeProductG, h, hc1, hc2, hc3]
  · intro ap cat p hp
    simp only [parseProducts, List.map_cons, List.map_nil, List.mem_cons,
      List.not_mem_nil, or_false] at hp
    subst hp
    rfl

/-- C7: category resolution of the HTML variants on the three claim
scenarios: a detail page with no breadcrumbs and listing category Cases
yields category Cases and subcategories containing exactly Cases; a page
with breadcrumbs Home, Phones, Cases, My Product and no listing category
yields category Cases and subcategories Phones, Cases (the home label and
the trailing product name are dropped); with neither source both fields
default to General. -/
theorem c7_category_resolution :
    ((scrapeProductG rawGEmpty entryCases).categoria = "Cases" ∧
     (scrapeProductG rawGEmpty entryCases).subcategorias = ["Cases"]) ∧
    ((scrapeProductG rawGC7 entry0).categoria = "Cases" ∧
     (scrapeProductG rawGC7 entry0).subcategorias = ["Phones", "Cases"]) ∧
    ((scrapeProductG rawGEmpty entry0).categoria = "General" ∧
     (scrapeProductG rawGEmpty entry0).subcategorias = ["General"]) ∧
    ((scrapeProduct000 rawREmpty entryCases).categoria = "Cases" ∧
     (scrapeProduct000 rawREmpty entryCases).subcategorias = ["Cases"]) ∧
    ((scrapeProduct000 rawRC7 entry0).categoria = "Cases" ∧
     (scrapeProduct000 rawRC7 entry0).subcategorias = ["Phones", "Cases"]) ∧
    ((scrapeProduct000 rawREmpty entry0).categoria = "General" ∧
     (scrapeProduct000 rawREmpty entry0).subcategorias = ["General"]) := by
  decide

/-- C8 counterexample: two distinct products sharing category and name are
two valid completion orders of the same set whose final sorted writes
differ, so the output sequence is not independent of the completion order
when (category, name) keys collide. -/
theorem c8_counterexample :
    List.Perm [prodA, prodB] [prodB, prodA] ∧
    sortProducts [prodA, prodB] = [prodA, prodB] ∧
    sortProducts [prodB, prodA] = [prodB, prodA] ∧
    [prodA, prodB] ≠ ([prodB, prodA] : List Product) := by
  refine ⟨List.Perm.swap prodB prodA [], rfl, rfl, ?_⟩
  intro h
  have h1 : prodA = prodB := (List.cons.injEq _ _ _ _ ▸ congrArg id h).1
  have h2 := congrArg Product.link h1
  exact absurd h2 (by decide)

/-- C8 amended: the final write is a permutation of the accumulated
products, sorted so that no later product is strictly less than an earlier
one under the category-then-name comparison; for any two completion orders
of the same products the sorted writes coincide provided no two distinct
products share both category and name (with colliding keys the order is not
guaranteed: the library sort is unstable and even a stable sort would expose
the arrival order of tied records). -/
theorem c8_sorted_amended (l₁ l₂ : List Product)
    (hp : List.Perm l₁ l₂) (hk : (l₁.map prodKey).Nodup) :
    List.Perm (sortProducts l₁) l₁ ∧
    (sortProducts l₁).Pairwise ProdLe ∧
    sortProducts l₁ = sortProducts l₂ := by
  haveI : IsTotal Product ProdLe := ⟨prodLe_total⟩
  haveI : IsTrans Product ProdLe := ⟨prodLe_trans⟩
  refine ⟨List.perm_insertionSort _ _, List.sorted_insertionSort _ _, ?_⟩
  apply sorted_perm_nodup_key_eq
  · exact (List.perm_insertionSort _ _).trans
      (hp.trans (List.perm_insertionSort _ _).symm)
  · exact List.sorted_insertionSort _ _
  · exact List.sorted_insertionSort _ _
  · have hmp : List.Perm ((sortProducts l₁).map prodKey) (l₁.map prodKey) :=
      (List.perm_insertionSort _ _).map _
    exact hmp.nodup_iff.mpr hk

/-- Witness for C8: the singleton run, where the final write is the sorted
permutation of itself and determinism holds trivially. -/
theorem c8_witness :
    List.Perm (sortProducts [prodA]) [prodA] ∧
    (sortProducts [prodA]).Pairwise ProdLe ∧
    sortProducts [prodA] = sortProducts [prodA] :=
  c8_sorted_amended [prodA] [prodA] (List.Perm.refl _) (by simp)

/-- C9 counterexample: in the goquery HTML variant a discovery that succeeds
with zero categories does not abort: the run proceeds through the (empty)
collection phase, the worker phase and the final write, producing an empty
output instead of a fatal error. -/
theorem c9_counterexample :
    runG (some []) (fun _ _ => []) (fun _ => rawGEmpty) =
      Except.ok ([] : List Product) := rfl

/-- C9 amended: the P2 variant aborts fatally before the worker pool both
when discovery fails and when it yields zero categories; the HTML variants
abort before the pool only when the discovery request itself fails, and a
successful discovery of zero categories instead proceeds to an empty run
and an empty final write. -/
theorem c9_fatal_amended :
    (∀ r : Option (List (String × String)), (r = none ∨ r = some []) →
      ∃ m, mainFlowP2 r = Except.error m) ∧
    (∀ (collect : String → String → List ProductEntry)
        (pages : ProductEntry → RawG),
      (∃ m, runG none collect pages = Except.error m) ∧
      ∀ cats, ∃ out, runG (some cats) collect pages = Except.ok out) := by
  constructor
  · rintro r (rfl | rfl)
    · exact ⟨_, rfl⟩
    · exact ⟨_, rfl⟩
  · intro collect pages
    exact ⟨⟨_, rfl⟩, fun cats => ⟨_, rfl⟩⟩

/-- Subcategory lists produced by the shared category resolution are never
empty. -/
theorem resolveCategory_pos (c : String) (sub : List String) :
    0 < (resolveCategory c sub).2.length := by
  unfold resolveCategory
  split_ifs with h1 h2 h3
  · simp
  · have := List.length_pos.mpr h2
    simpa using this
  · have := List.length_pos.mpr h3
    simpa using this
  · simp

/-- C2 counterexample: the sink of the P2 variant deduplicates nothing: the
same API product served on the pages of two categories appears twice in the
final written list, with identical links. -/
theorem c2_counterexample :
    ¬ ((runOutputP2 [([apBase], "A"), ([apBase], "B")]).map
        Product.link).Nodup := by
  decide

/-- C2 amended: in the HTML variants the final list contains no two records
with the same link, because the collected entries are globally deduplicated
by canonical URL before the detail phase and every scraped product carries
the URL of its entry as its link; this holds for every subset of the
deduplicated entries in every completion order.  The P2 variant performs no
deduplication by link (see the counterexample). -/
theorem c2_dedup_amended (l : List ProductEntry)
    (pages : ProductEntry → RawG) (done : List ProductEntry)
    (hsub : List.Subperm done (dedupEntries [] l)) :
    ((sortProducts (done.map fun e => scrapeProductG (pages e) e)).map
      Product.link).Nodup := by
  have hperm : List.Perm
      (sortProducts (done.map fun e => scrapeProductG (pages e) e))
      (done.map fun e => scrapeProductG (pages e) e) :=
    List.perm_insertionSort _ _
  have hmap : ((done.map fun e => scrapeProductG (pages e) e).map
      Product.link) = done.map ProductEntry.url := by
    rw [List.map_map]
    rfl
  have hnd : (done.map ProductEntry.url).Nodup := by
    have hsubm : List.Subperm (done.map ProductEntry.url)
        ((dedupEntries [] l).map ProductEntry.url) := by
      obtain ⟨l', hp', hs'⟩ := hsub
      exact ⟨l'.map ProductEntry.url, hp'.map _, hs'.map _⟩
    exact nodup_of_subperm hsubm (dedupEntries_nodup l []).1
  have h2 : ((done.map fun e => scrapeProductG (pages e) e).map
      Product.link).Nodup := by
    rw [hmap]
    exact hnd
  exact (hperm.map Product.link).nodup_iff.mpr h2

/-- Witness for C2: the two-entry listing that repeats one URL; after
deduplication and a full completion the sorted write has pairwise distinct
links. -/
theorem c2_witness :
    ((sortProducts ((dedupEntries [] [entryCases, entryCases]).map
        fun e => scrapeProductG rawGEmpty e)).map Product.link).Nodup :=
  c2_dedup_amended [entryCases, entryCases] (fun _ => rawGEmpty)
    (dedupEntries [] [entryCases, entryCases]) (List.Subperm.refl _)

/-- C10: in both HTML variants every product built by scrapeProduct has a
non-empty subcategory list, through the fallback chain listing category,
then breadcrumb remainder, then the literal General label. -/
theorem c10_subcategories_nonempty :
    (∀ (raw : RawG) (e : ProductEntry),
      0 < (scrapeProductG raw e).subcategorias.length) ∧
    (∀ (raw : RawR) (e : ProductEntry),
      0 < (scrapeProduct000 raw e).subcategorias.length) :=
  ⟨fun _ _ => resolveCategory_pos _ _, fun _ _ => resolveCategory_pos _ _⟩

end AccCompras
